import Mathlib

/-!
Verification development for the Bangladesh address enricher
(`src/address_enricher.py`).  Strings are modelled as lists of characters
(`Str`); every definition below is a shallow embedding of the Python
function of the same (or clearly related) name, translated line by line
from the source.  Python `dict`s are modelled as association lists with
insert-or-replace semantics (`dictInsert` / `dictGet`), which preserves
insertion order exactly as CPython does.
-/

set_option maxRecDepth 20000
set_option maxHeartbeats 4000000

/-- Strings as lists of characters. -/
abbrev Str := List Char

/-- Character list of a string literal. -/
def strL (s : String) : Str := s.data

/-- ASCII whitespace, the characters matched by Python's `\s` / `str.strip`
on the ASCII range (space, tab, newline, vertical tab, form feed,
carriage return). -/
def isWs (c : Char) : Bool :=
  c.toNat == 32 || c.toNat == 9 || c.toNat == 10 ||
  c.toNat == 11 || c.toNat == 12 || c.toNat == 13

/-- The character class kept by `normalize`'s regex `[^a-z0-9,/\-\s]`
apart from whitespace: lowercase letters, digits, comma, slash, hyphen
(code points 44 `,`, 47 `/`, 45 `-`). -/
def isAllowedCore (c : Char) : Bool :=
  (97 ≤ c.toNat && c.toNat ≤ 122) || (48 ≤ c.toNat && c.toNat ≤ 57) ||
  c.toNat == 44 || c.toNat == 47 || c.toNat == 45

/-- `listStartsWith p s` = `p` is a prefix of `s`. -/
def listStartsWith : Str → Str → Bool
  | [], _ => true
  | _ :: _, [] => false
  | p :: ps, c :: cs => p == c && listStartsWith ps cs

/-- Fuel-driven worker for `replaceAll`; fuel `≥` length of the string is
always enough since every step consumes at least one character. -/
def replaceAllGo (pat rep : Str) : Nat → Str → Str
  | _, [] => []
  | 0, s => s
  | fuel + 1, c :: rest =>
    if listStartsWith pat (c :: rest) && !pat.isEmpty then
      rep ++ replaceAllGo pat rep fuel (List.drop (pat.length - 1) rest)
    else
      c :: replaceAllGo pat rep fuel rest

/-- Python `str.replace(pat, rep)`: replace all non-overlapping
occurrences left to right.  (An empty pattern never occurs in this
code base; the guard makes it a no-op.) -/
def replaceAll (pat rep s : Str) : Str := replaceAllGo pat rep s.length s

/-- The ordered replacement table of `normalize`
(`address_enricher.py:35`-`48`), applied in source order. -/
def REPLACEMENTS : List (Str × Str) :=
  [ (strL "dacca", strL "dhaka"),
    (strL "chittagong", strL "chattogram"),
    (strL "ctg", strL "chattogram"),
    (strL "barisal", strL "barishal"),
    (strL "cumilla", strL "comilla"),
    (strL "uttora", strL "uttara"),
    (strL "gulshan-1", strL "gulshan 1"),
    (strL "gulshan-2", strL "gulshan 2"),
    (strL "badda thana", strL "badda"),
    (strL "banani thana", strL "banani"),
    (strL "kotowali", strL "kotwali"),
    (strL "mohammad pur", strL "mohammadpur") ]

/-- The replacement pass of `normalize`: each table entry applied with
`str.replace`, in table order. -/
def applyReps (s : Str) : Str :=
  REPLACEMENTS.foldl (fun acc pr => replaceAll pr.1 pr.2 acc) s

/-- `re.sub(r"[^a-z0-9,/\-\s]", " ", s)`: every character outside the
allow-set becomes a space. -/
def stripBad (s : Str) : Str :=
  s.map (fun c => if isAllowedCore c || isWs c then c else ' ')

/-- `re.sub(r"\s+", " ", s)`: each maximal run of whitespace collapses to
one space (emitted at the end of the run). -/
def collapseWs : Str → Str
  | [] => []
  | [c] => if isWs c then [' '] else [c]
  | c :: d :: rest =>
    if isWs c && isWs d then collapseWs (d :: rest)
    else (if isWs c then ' ' else c) :: collapseWs (d :: rest)

/-- Drop trailing whitespace. -/
def dropTrailWs (s : Str) : Str := (s.reverse.dropWhile isWs).reverse

/-- Python `str.strip()` (ASCII whitespace). -/
def trimWs (s : Str) : Str := dropTrailWs (s.dropWhile isWs)

/-- `s.lower()` (ASCII; all strings this program normalizes are ASCII
after the regex strip, and Bangla characters are caseless). -/
def lowerStr (s : Str) : Str := s.map Char.toLower

/-- `normalize` (`address_enricher.py:31`-`53`), on string input:
lower-case, ordered literal replacements, strip disallowed characters to
spaces, collapse whitespace, trim. -/
def normalizeL (s : Str) : Str :=
  trimWs (collapseWs (stripBad (applyReps (lowerStr s))))

/-- A Python value reaching `normalize`: a string, `None`, or a
non-string value (modelled by `int`, the typical spreadsheet cell case). -/
inductive PyVal where
  | none : PyVal
  | str : Str → PyVal
  | int : Int → PyVal
deriving DecidableEq

/-- Python `str(n)` for an integer. -/
def intStr (n : Int) : Str := (toString n).data

/-- `normalize` on an arbitrary value, mirroring
`if not isinstance(s, str): s = "" if s is None else str(s)`. -/
def normalize_any : PyVal → Str
  | .str s => normalizeL s
  | .none => normalizeL []
  | .int n => normalizeL (intStr n)

/-! ### Python dictionaries as ordered association lists -/

/-- Python `d[k]` / `d.get(k)` lookup. -/
def dictGet {α : Type} (m : List (Str × α)) (k : Str) : Option α :=
  (m.find? (fun p => p.1 == k)).map (·.2)

/-- Python `d[k] = v`: replace in place if the key exists, else append. -/
def dictInsert {α : Type} (m : List (Str × α)) (k : Str) (v : α) :
    List (Str × α) :=
  match m with
  | [] => [(k, v)]
  | (k', v') :: rest =>
    if k' == k then (k, v) :: rest else (k', v') :: dictInsert rest k v

/-! ### Static data tables (`address_enricher.py:75`-`135`) -/

/-- The closed district list `DISTRICTS` (`address_enricher.py:75`-`85`). -/
def DISTRICTS : List Str :=
  [ strL "dhaka", strL "gazipur", strL "narayanganj", strL "munshiganj",
    strL "manikganj", strL "narshingdi", strL "kishoreganj", strL "tangail",
    strL "mymensingh", strL "jamalpur", strL "netrokona", strL "sherpur",
    strL "faridpur", strL "madaripur", strL "gopalganj", strL "rajbari",
    strL "shariatpur",
    strL "chattogram", strL "cox s bazar", strL "feni", strL "noakhali",
    strL "lakshmipur", strL "rangamati", strL "khagrachhari",
    strL "bandarban", strL "comilla", strL "brahmanbaria",
    strL "sylhet", strL "moulvibazar", strL "habiganj", strL "sunamganj",
    strL "khulna", strL "jashore", strL "satkhira", strL "bagerhat",
    strL "chuadanga", strL "kushtia", strL "meherpur", strL "jhenaidah",
    strL "magura", strL "narail",
    strL "rajshahi", strL "chapainawabganj", strL "naogaon", strL "natore",
    strL "pabna", strL "sirajganj", strL "bogura",
    strL "barishal", strL "patuakhali", strL "barguna", strL "jhalokathi",
    strL "pirojpur", strL "bhola",
    strL "rangpur", strL "dinajpur", strL "nilphamari", strL "lalmonirhat",
    strL "kurigram", strL "gaibandha", strL "thakurgaon", strL "panchagarh" ]

/-- `DISTRICT_ALIASES` (`address_enricher.py:86`-`94`), in source order. -/
def DISTRICT_ALIASES : List (Str × Str) :=
  [ (strL "laxmipur", strL "lakshmipur"),
    (strL "bogra", strL "bogura"),
    (strL "jessore", strL "jashore"),
    (strL "barisal", strL "barishal"),
    (strL "chittagong", strL "chattogram"),
    (strL "coxsbazar", strL "cox s bazar"),
    (strL "cox's bazar", strL "cox s bazar") ]

/-- `DISTRICT_ALIASES.get(d, d)`. -/
def aliasResolve (d : Str) : Str := (dictGet DISTRICT_ALIASES d).getD d

/-- `AREA_TO_DISTRICT` (`address_enricher.py:97`-`124`), in source order. -/
def AREA_TO_DISTRICT : List (Str × Str) :=
  [ (strL "gulshan", strL "dhaka"), (strL "banani", strL "dhaka"),
    (strL "baridhara", strL "dhaka"), (strL "badda", strL "dhaka"),
    (strL "uttara", strL "dhaka"), (strL "mirpur", strL "dhaka"),
    (strL "mohammadpur", strL "dhaka"), (strL "tejgaon", strL "dhaka"),
    (strL "dhanmondi", strL "dhaka"), (strL "lalbagh", strL "dhaka"),
    (strL "kafrul", strL "dhaka"), (strL "cantonment", strL "dhaka"),
    (strL "airport", strL "dhaka"), (strL "ramna", strL "dhaka"),
    (strL "motijheel", strL "dhaka"), (strL "paltan", strL "dhaka"),
    (strL "sabujbagh", strL "dhaka"), (strL "khilgaon", strL "dhaka"),
    (strL "rampura", strL "dhaka"), (strL "jatrabari", strL "dhaka"),
    (strL "mugda", strL "dhaka"), (strL "wari", strL "dhaka"),
    (strL "demra", strL "dhaka"), (strL "shyampur", strL "dhaka"),
    (strL "kamrangirchar", strL "dhaka"), (strL "adabor", strL "dhaka"),
    (strL "hazaribagh", strL "dhaka"), (strL "shahbag", strL "dhaka"),
    (strL "banglamotor", strL "dhaka"),
    (strL "bansree", strL "dhaka"), (strL "khilkhet", strL "dhaka"),
    (strL "bosila", strL "dhaka"), (strL "niketan", strL "dhaka"),
    (strL "notun bazar", strL "dhaka"),
    (strL "bashundhara", strL "dhaka"),
    (strL "bashundhara r/a", strL "dhaka"),
    (strL "nakhalpara", strL "dhaka"),
    (strL "tejgaon industrial area", strL "dhaka"),
    (strL "zigatola", strL "dhaka"),
    (strL "tongi", strL "gazipur"), (strL "joydebpur", strL "gazipur"),
    (strL "kaliakair", strL "gazipur"), (strL "kaliganj", strL "gazipur"),
    (strL "sreepur", strL "gazipur"),
    (strL "siddhirganj", strL "narayanganj"),
    (strL "bandar", strL "narayanganj"),
    (strL "fatulla", strL "narayanganj"),
    (strL "kotwali", strL "chattogram"),
    (strL "panchlaish", strL "chattogram"),
    (strL "double mooring", strL "chattogram"),
    (strL "pahartali", strL "chattogram"),
    (strL "halishahar", strL "chattogram"),
    (strL "patenga", strL "chattogram"),
    (strL "bakalia", strL "chattogram"),
    (strL "bandar thana", strL "chattogram"),
    (strL "chandgaon", strL "chattogram"),
    (strL "akbar shah", strL "chattogram"),
    (strL "bayazid", strL "chattogram"),
    (strL "kotwali sylhet", strL "sylhet"),
    (strL "south surma", strL "sylhet"),
    (strL "moglabazar", strL "sylhet"),
    (strL "subidbazar", strL "sylhet"),
    (strL "boalia", strL "rajshahi"), (strL "motihar", strL "rajshahi"),
    (strL "rajpara", strL "rajshahi"),
    (strL "shah makhdum", strL "rajshahi"),
    (strL "khalishpur", strL "khulna"), (strL "daulatpur", strL "khulna"),
    (strL "sonadanga", strL "khulna"),
    (strL "khulna kotwali", strL "khulna"),
    (strL "barishal kotwali", strL "barishal"),
    (strL "airport barishal", strL "barishal"),
    (strL "kotwali comilla", strL "comilla"),
    (strL "adarsa sadar", strL "comilla"),
    (strL "sadar noakhali", strL "noakhali"),
    (strL "sadar bogura", strL "bogura") ]

/-- The variant set `{k, k.replace("-"," "), k.replace(" ",""),
k.replace("/"," ")}` of `expand_area_keys`; written in source order and
deduplicated (the inner Python `set`'s iteration order is irrelevant
because every variant maps to the same district). -/
def variantsOf (k : Str) : List Str :=
  [ k, replaceAll (strL "-") (strL " ") k,
    replaceAll (strL " ") [] k,
    replaceAll (strL "/") (strL " ") k ].eraseDups

/-- `expand_area_keys` (`address_enricher.py:126`-`131`). -/
def expand_area_keys (l : List (Str × Str)) : List (Str × Str) :=
  l.foldl
    (fun acc kv =>
      (variantsOf kv.1).foldl
        (fun acc2 w => dictInsert acc2 (normalizeL w) kv.2) acc)
    []

/-- `EXPANDED_AREA = expand_area_keys(AREA_TO_DISTRICT)`. -/
def EXPANDED_AREA : List (Str × Str) := expand_area_keys AREA_TO_DISTRICT

/-- `AREA_KEYS = list(set(EXPANDED_AREA.keys()))`.  A Python `set` of
strings iterates in an unspecified, hash-dependent order; this model
fixes the dictionary's insertion order (the claims proved below do not
depend on the order of this list). -/
def AREA_KEYS : List Str := (EXPANDED_AREA.map (·.1)).eraseDups

/-- `DISTRICT_KEYS = list(set([normalize(d) for d in DISTRICTS] +
list(DISTRICT_ALIASES.keys())))`.  Same remark as `AREA_KEYS` on the
`set` iteration order: the model fixes source order, canonical names
first, then aliases. -/
def DISTRICT_KEYS : List Str :=
  ((DISTRICTS.map normalizeL) ++ DISTRICT_ALIASES.map (·.1)).eraseDups

/-! ### `difflib.get_close_matches` (used with `n=1`)

The model follows CPython's `difflib.SequenceMatcher` without junk
heuristics (autojunk only activates for strings of length ≥ 200, far
beyond any input here).  Ratios are exact rationals; for the short
strings of this program the float comparisons of CPython agree with the
rational ones (distinct ratios `2M/T` with `T ≤ 60` differ by far more
than one double ulp, and an exact tie rounds to the same double on both
sides of the comparison). -/

/-- `j2len.get(j, 0)` on the association list used by
`find_longest_match`. -/
def j2lenGet (l : List (Nat × Nat)) (j : Nat) : Nat :=
  match l.find? (fun p => p.1 == j) with
  | some p => p.2
  | none => 0

/-- Inner loop of `find_longest_match`: one row `i`, iterating the
positions `j` of `b` (ascending) where `b[j] = a[i]`. -/
def flmRow (j2old : List (Nat × Nat)) (i : Nat) :
    List Nat → List (Nat × Nat) → Nat × Nat × Nat →
    List (Nat × Nat) × (Nat × Nat × Nat)
  | [], acc, best => (acc, best)
  | j :: js, acc, best =>
    let k := (if j = 0 then 0 else j2lenGet j2old (j - 1)) + 1
    let best' := if k > best.2.2 then (i + 1 - k, j + 1 - k, k) else best
    flmRow j2old i js (acc ++ [(j, k)]) best'

/-- `SequenceMatcher.find_longest_match(alo, ahi, blo, bhi)` for
sequences `a`, `b` (no junk): returns `(i, j, size)`. -/
def flm (a b : Str) (alo ahi blo bhi : Nat) : Nat × Nat × Nat :=
  let step := fun (st : List (Nat × Nat) × (Nat × Nat × Nat)) (i : Nat) =>
    let js := (List.range bhi).filter
      (fun j => blo ≤ j && b.getD j ' ' == a.getD i ' ')
    flmRow st.1 i js [] st.2
  (((List.range ahi).filter (fun i => alo ≤ i)).foldl step
    ([], (alo, blo, 0))).2

/-- Total size of all matching blocks (the `M` of
`SequenceMatcher.ratio`), computed by the recursive block
decomposition of `get_matching_blocks`; `fuel` bounds the recursion
depth and is ample whenever `fuel > (ahi - alo) + (bhi - blo)`. -/
def totalMGo (a b : Str) : Nat → Nat → Nat → Nat → Nat → Nat
  | 0, _, _, _, _ => 0
  | fuel + 1, alo, ahi, blo, bhi =>
    let r := flm a b alo ahi blo bhi
    let i := r.1
    let j := r.2.1
    let size := r.2.2
    if size = 0 then 0
    else
      size + totalMGo a b fuel alo i blo j +
        totalMGo a b fuel (i + size) ahi (j + size) bhi

/-- `M` for the full strings. -/
def totalM (a b : Str) : Nat :=
  totalMGo a b (a.length + b.length + 1) 0 a.length 0 b.length

/-- `SequenceMatcher(a=x, b=word).ratio()` as an exact fraction
`(numerator, denominator)`: `2M / (len a + len b)`, and `1/1` for two
empty strings as in `difflib._calculate_ratio`.  The denominator is
always positive. -/
def smRatio (a b : Str) : Nat × Nat :=
  if a.length + b.length = 0 then (1, 1)
  else (2 * totalM a b, a.length + b.length)

/-- `real_quick_ratio`: the cheap upper bound `2*min(la,lb)/(la+lb)`
used by `get_close_matches` to skip hopeless candidates (an upper bound
of `ratio`, so filtering with it never changes the result set). -/
def realQuickRatio (a b : Str) : Nat × Nat :=
  if a.length + b.length = 0 then (1, 1)
  else (2 * min a.length b.length, a.length + b.length)

/-- `p ≥ q` on fractions with positive denominators. -/
def fracGe (p q : Nat × Nat) : Bool := q.1 * p.2 ≤ p.1 * q.2

/-- `p > q` on fractions with positive denominators. -/
def fracGt (p q : Nat × Nat) : Bool := q.1 * p.2 < p.1 * q.2

/-- `p = q` on fractions with positive denominators. -/
def fracEq (p q : Nat × Nat) : Bool := p.1 * q.2 == q.1 * p.2

/-- Python string comparison (code-point lexicographic, shorter prefix
smaller), as used by `heapq.nlargest` on `(ratio, x)` tie-breaks. -/
def strLtB : Str → Str → Bool
  | [], [] => false
  | [], _ :: _ => true
  | _ :: _, [] => false
  | c :: cs, d :: ds =>
    if c.toNat < d.toNat then true
    else if d.toNat < c.toNat then false
    else strLtB cs ds

/-- `get_close_matches(word, possibilities, n=1, cutoff)`: the element
`x` maximizing `(ratio(x, word), x)` among those with
`ratio ≥ cutoff`, or `none`.  The fold keeps the current best, and a
later candidate replaces it only when its `(ratio, x)` pair is
strictly larger, which matches `heapq.nlargest`.  The cutoff is the
exact fraction `cnum/cden` (CPython compares floats; for the short
strings of this program the float and exact comparisons agree, since
distinct candidate ratios differ by far more than one double ulp and an
exact tie rounds identically on both sides). -/
def getCloseMatches1 (word : Str) (poss : List Str) (cnum cden : Nat) :
    Option Str :=
  let pick := fun (best : Option (Str × (Nat × Nat))) (x : Str) =>
    if !fracGe (realQuickRatio x word) (cnum, cden) then best
    else
      let r := smRatio x word
      if !fracGe r (cnum, cden) then best
      else
        match best with
        | none => some (x, r)
        | some (y, ry) =>
          if fracGt r ry || (fracEq r ry && strLtB y x) then some (x, r)
          else best
  (poss.foldl pick none).map (·.1)

/-! ### Word-boundary matching (`re.search(rf"\b{re.escape(d)}\b", s)`) -/

/-- Python regex `\w` on the ASCII range: `[a-zA-Z0-9_]`. -/
def isWordChar (c : Char) : Bool :=
  (97 ≤ c.toNat && c.toNat ≤ 122) || (65 ≤ c.toNat && c.toNat ≤ 90) ||
  (48 ≤ c.toNat && c.toNat ≤ 57) || c.toNat == 95

/-- `\b` holds at position `i` of `s` iff exactly one of the adjacent
positions holds a word character. -/
def isBoundaryAt (s : Str) (i : Nat) : Bool :=
  let l := if i = 0 then false else isWordChar (s.getD (i - 1) ' ')
  let r := if i < s.length then isWordChar (s.getD i ' ') else false
  l != r

/-- The escaped literal pattern `p` matches at position `i` of `s` with
`\b` on both sides. -/
def matchesAt (p s : Str) (i : Nat) : Bool :=
  ((s.drop i).take p.length == p) && isBoundaryAt s i &&
    isBoundaryAt s (i + p.length)

/-- Truth value of `re.search(rf"\b{re.escape(p)}\b", s)`. -/
def hasWordMatch (p s : Str) : Bool :=
  (List.range (s.length + 1)).any (fun i => matchesAt p s i)

/-! ### Tokens and n-grams -/

/-- Worker for `str.split()`; accumulates the current token reversed. -/
def splitWsGo (cur : Str) : Str → List Str
  | [] => if cur.isEmpty then [] else [cur.reverse]
  | c :: rest =>
    if isWs c then
      if cur.isEmpty then splitWsGo [] rest
      else cur.reverse :: splitWsGo [] rest
    else splitWsGo (c :: cur) rest

/-- Python `str.split()` with no separator: split on whitespace runs,
dropping empty tokens. -/
def splitWs (s : Str) : List Str := splitWsGo [] s

/-- `toks = addr.replace(",", " ").split();
grams = toks + [" ".join(toks[i:i+2]) for i in range(len(toks)-1)]`. -/
def gramsOf (addr : Str) : List Str :=
  let toks := splitWs (replaceAll (strL ",") (strL " ") addr)
  toks ++ (toks.zip (toks.drop 1)).map (fun p => p.1 ++ ' ' :: p.2)

/-! ### Offline guessers (`address_enricher.py:139`-`165`) -/

/-- First `some` produced by `f` along a list (a Python
`for`-loop with an early `return`). -/
def firstSome {α β : Type} (f : α → Option β) : List α → Option β
  | [] => none
  | x :: rest =>
    match f x with
    | some y => some y
    | none => firstSome f rest

/-- `guess_area` (`address_enricher.py:139`-`150`): word-bounded scan of
the area key set, then fuzzy n-gram matching with cutoff 0.9. -/
def guess_area (addr_norm : Str) : Option Str :=
  match AREA_KEYS.find? (fun a => hasWordMatch a addr_norm) with
  | some a => some a
  | none =>
    firstSome
      (fun g => getCloseMatches1 (normalizeL g) AREA_KEYS 9 10)
      (gramsOf addr_norm)

/-- `guess_district_from_text` (`address_enricher.py:153`-`165`):
word-bounded scan of the district key set (aliases resolved), else the
district of a guessed area, else fuzzy token matching with cutoff
0.88. -/
def guess_district_from_text (addr_norm : Str) : Option Str :=
  match DISTRICT_KEYS.find? (fun d => hasWordMatch d addr_norm) with
  | some d => some (aliasResolve d)
  | none =>
    match guess_area addr_norm with
    | some a => dictGet EXPANDED_AREA a
    | none =>
      firstSome
        (fun t => getCloseMatches1 t (DISTRICTS.map normalizeL) 22 25)
        (splitWs (replaceAll (strL ",") (strL " ") addr_norm))

/-! ### `str.title()` and the enrichment output formatting -/

/-- Worker for `str.title()`: a cased character is uppercased when the
previous character is not cased, lowercased otherwise (ASCII). -/
def titleGo (prevAlpha : Bool) : Str → Str
  | [] => []
  | c :: rest =>
    let alpha := (97 ≤ c.toNat && c.toNat ≤ 122) ||
      (65 ≤ c.toNat && c.toNat ≤ 90)
    let c' := if alpha then (if prevAlpha then c.toLower else c.toUpper)
      else c
    c' :: titleGo alpha rest

/-- Python `str.title()` (ASCII). -/
def titleCase (s : Str) : Str := titleGo false s

/-- The sentinel `"Not found"`. -/
def NF : Str := strL "Not found"

/-- `a.replace(" r a", " R/A").title().replace("R/a", "R/A")`
(`address_enricher.py:253`). -/
def thanaFormat (a : Str) : Str :=
  replaceAll (strL "R/a") (strL "R/A")
    (titleCase (replaceAll (strL " r a") (strL " R/A") a))

/-- Token re-scan of `offline_enrich` (`address_enricher.py:256`-`263`):
first gram found in the offline map fills the still-unresolved fields,
then the loop breaks. -/
def gramScan (m : List (Str × Str)) :
    List Str → Str → Str → Str × Str
  | [], dOut, tOut => (dOut, tOut)
  | g :: rest, dOut, tOut =>
    let gn := normalizeL g
    match dictGet m gn with
    | some v =>
      let tOut' := if tOut == NF then titleCase gn else tOut
      let dOut' := if dOut == NF then titleCase v else dOut
      (dOut', tOut')
    | none => gramScan m rest dOut tOut

/-- `offline_enrich` (`address_enricher.py:249`-`264`). -/
def offline_enrich (addr_norm : Str) (offline_map : List (Str × Str)) :
    Str × Str :=
  let d := guess_district_from_text addr_norm
  let a := guess_area addr_norm
  let district_out := match d with | some d0 => titleCase d0 | none => NF
  let thana_out := match a with | some a0 => thanaFormat a0 | none => NF
  gramScan offline_map (gramsOf addr_norm) district_out thana_out

/-- `make_offline_index` (`address_enricher.py:182`-`186`): the seed
area map overlaid with the external gazetteer rows. -/
def make_offline_index (csv_rows : List (Str × Str)) :
    List (Str × Str) :=
  csv_rows.foldl (fun m r => dictInsert m r.1 r.2) EXPANDED_AREA

/-! ### The gazetteer CSV loader (`address_enricher.py:169`-`180`) -/

/-- A row of the external gazetteer table as `csv.DictReader` presents
it: each recognised column is either absent (`none`) or a string. -/
structure GazRow where
  thana : Option Str
  upazila : Option Str
  area : Option Str
  district : Option Str

/-- Python `x or alt` for `x` an optional string: `None` and `""` are
falsy. -/
def pyOrStr (o : Option Str) (alt : Str) : Str :=
  match o with
  | some s => if s.isEmpty then alt else s
  | none => alt

/-- The state of the external gazetteer file as the loader finds it:
absent; present but unreadable (`open` raises `OSError`); present but
not decodable as UTF-8 (row iteration raises `UnicodeDecodeError`);
present and decodable but with CSV content the `csv` module refuses —
for example a field longer than `csv.field_size_limit` (131072
characters) makes `DictReader` iteration raise
`_csv.Error: field larger than field limit`; or successfully parsed,
with the rows `csv.DictReader` delivered. -/
inductive FileSource where
  | absent : FileSource
  | ioError : FileSource
  | badEncoding : FileSource
  | csvError : FileSource
  | rows : List GazRow → FileSource

/-- `load_csv_gazetteer` (`address_enricher.py:169`-`180`).  The
function body has no `try`/`except`: a missing path returns `[]`, but
any exception raised while opening, decoding, or CSV-parsing an
existing file — unreadable file, non-UTF-8 bytes, or a decodable file
whose row iteration fails such as on an over-long field — propagates
out of the function (modelled by `Except.error`); only on a
successfully parsed file does it keep the rows whose
thana/upazila/area and district fields are non-empty after
normalization. -/
def load_csv_gazetteer : FileSource → Except String (List (Str × Str))
  | .absent => .ok []
  | .ioError => .error "OSError"
  | .badEncoding => .error "UnicodeDecodeError"
  | .csvError => .error "_csv.Error: field larger than field limit"
  | .rows rs =>
    .ok (rs.foldr
      (fun row acc =>
        let th := normalizeL
          (pyOrStr row.thana (pyOrStr row.upazila (pyOrStr row.area [])))
        let dist := normalizeL (pyOrStr row.district [])
        if !th.isEmpty && !dist.isEmpty then (th, dist) :: acc else acc)
      [])

/-! ### The geocode cache and online resolver
(`address_enricher.py:190`-`274`) -/

/-- In-memory cache: raw address → (district, thana). -/
abbrev Cache := List (Str × (Str × Str))

/-- Python `s or "Not found"` for a string `s`. -/
def strOrNF (s : Str) : Str := if s.isEmpty then NF else s

/-- Python `x or "Not found"` for `x` an optional string (the result of
`nominatim_lookup`, whose `fix` helper never returns an empty
string). -/
def optOrNF : Option Str → Str
  | none => NF
  | some s => strOrNF s

/-- `online_enrich` (`address_enricher.py:267`-`274`).  The network is
abstracted as `lookup` (the pure outcome `nominatim_lookup` would
produce for this address); the third component counts how many times
`nominatim_lookup` is invoked.  On a cache hit the cached pair is
returned with empty fields replaced by the sentinel and the cache is
untouched; otherwise the looked-up pair (sentinel-substituted) is
written through and returned. -/
def online_enrich (lookup : Str → Option Str × Option Str)
    (address : Str) (cache : Cache) : (Str × Str) × Cache × Nat :=
  match dictGet cache address with
  | some dt => ((strOrNF dt.1, strOrNF dt.2), cache, 0)
  | none =>
    let r := lookup address
    let v := (optOrNF r.1, optOrNF r.2)
    (v, dictInsert cache address v, 1)

/-! ### Cache persistence as CSV (`address_enricher.py:190`-`206`)

`save_cache` writes with `csv.writer` (QUOTE_MINIMAL, `\r\n` row
terminator), `load_cache` reads with `csv.DictReader`; both are
modelled character-exactly for the dialect features the writer can
produce. -/

/-- A field must be quoted iff it contains the delimiter, the quote
character, or a line-terminator character (QUOTE_MINIMAL). -/
def needsQuote (f : Str) : Bool :=
  f.any (fun c => c == ',' || c == '"' || c == '\r' || c == '\n')

/-- Double every quote character. -/
def escQ : Str → Str
  | [] => []
  | c :: rest => if c == '"' then '"' :: '"' :: escQ rest else c :: escQ rest

/-- Serialize one field. -/
def writeField (f : Str) : Str :=
  if needsQuote f then '"' :: (escQ f ++ ['"']) else f

/-- Serialize one three-field row, terminated by `\r\n`. -/
def writeRow3 (a b c : Str) : Str :=
  writeField a ++ ',' :: (writeField b ++ ',' :: (writeField c ++ ['\r', '\n']))

/-- Serialize a list of three-field rows, one record each. -/
def encodeRows (rs : List (Str × Str × Str)) : Str :=
  rs.foldr (fun kv acc => writeRow3 kv.1 kv.2.1 kv.2.2 ++ acc) []

/-- `save_cache` (`address_enricher.py:199`-`206`): the file content
written for a configured cache path — header row then one row per
cache entry, in dictionary (insertion) order. -/
def save_cache (cache : Cache) : Str :=
  writeRow3 (strL "address") (strL "district") (strL "thana") ++
    encodeRows cache

/-- Parse an unquoted field: everything up to a delimiter or
line-terminator character.  The accumulator holds the field reversed. -/
def parseUnquoted (acc : Str) : Str → Str × Str
  | [] => (acc.reverse, [])
  | c :: rest =>
    if c == ',' || c == '\r' || c == '\n' then (acc.reverse, c :: rest)
    else parseUnquoted (c :: acc) rest

/-- Parse a quoted field body (after the opening quote): `""` is an
escaped quote, a lone quote closes the field.  `pending` records that
the previous character was a quote whose meaning (escape or close) the
current character decides. -/
def parseQuotedGo (pending : Bool) (acc : Str) : Str → Str × Str
  | [] => (acc.reverse, [])
  | c :: rest =>
    if pending then
      if c == '"' then parseQuotedGo false ('"' :: acc) rest
      else (acc.reverse, c :: rest)
    else
      if c == '"' then parseQuotedGo true acc rest
      else parseQuotedGo false (c :: acc) rest

/-- Parse one field, choosing quoted or unquoted by the first
character. -/
def parseField : Str → Str × Str
  | [] => ([], [])
  | c :: rest =>
    if c == '"' then parseQuotedGo false [] rest
    else parseUnquoted [] (c :: rest)

/-- Parse the fields of one record; `fuel` bounds the number of fields
and the string length is always enough.  After a field, a comma
continues the record, `\r\n` (or a bare `\r` or `\n`, which the writer
never produces) ends it. -/
def parseRecordGo : Nat → Str → List Str → List Str × Str
  | 0, s, acc => (acc.reverse, s)
  | fuel + 1, s, acc =>
    let fr := parseField s
    match fr.2 with
    | [] => ((fr.1 :: acc).reverse, [])
    | c :: rest2 =>
      if c == ',' then parseRecordGo fuel rest2 (fr.1 :: acc)
      else if c == '\r' then
        match rest2 with
        | [] => ((fr.1 :: acc).reverse, [])
        | c2 :: rest3 =>
          if c2 == '\n' then ((fr.1 :: acc).reverse, rest3)
          else ((fr.1 :: acc).reverse, c2 :: rest3)
      else if c == '\n' then ((fr.1 :: acc).reverse, rest2)
      else parseRecordGo fuel rest2 (fr.1 :: acc)

/-- Parse all records of a file; `fuel` bounds the number of records. -/
def parseRecords : Nat → Str → List (List Str)
  | 0, _ => []
  | fuel + 1, s =>
    match s with
    | [] => []
    | c :: rest =>
      let r := parseRecordGo (c :: rest).length (c :: rest) []
      r.1 :: parseRecords fuel r.2

/-- `load_cache` (`address_enricher.py:190`-`197`) on the content of an
existing cache file: the first record is the header, and each data row
is read through `csv.DictReader` (header zipped with the row's fields;
surplus fields are dropped and absent fields stay unset, which the
writer never produces). -/
def load_cache_content (content : Str) : Cache :=
  match parseRecords (content.length + 1) content with
  | [] => []
  | header :: dataRows =>
    dataRows.foldl
      (fun m r =>
        let row := header.zip r
        dictInsert m ((dictGet row (strL "address")).getD [])
          ((dictGet row (strL "district")).getD [],
           (dictGet row (strL "thana")).getD []))
      []

/-- `load_cache` including the missing-file case
(`if cache_path and os.path.exists(cache_path)`): no file means an
empty cache. -/
def load_cache : Option Str → Cache
  | none => []
  | some content => load_cache_content content

/-! ### The orchestrator `run` (`address_enricher.py:277`-`335`),
restricted to its per-row resolution core: spreadsheet I/O and column
detection are external collaborators; a row is (address cell, District
cell, Thana cell). -/

/-- `not str(cell).strip()`: the cell is blank (empty or
whitespace-only). -/
def isBlank (s : Str) : Bool := (trimWs s).isEmpty

/-- The mode dispatch and retry pass of the `run` loop body
(`address_enricher.py:304`-`322`) for one address, threading the
cache.  Any mode string other than `"offline"` and `"online"` takes the
`auto` branch, as in the source. -/
def enrichRow (modeS : Str) (retry : Bool)
    (lookup : Str → Option Str × Option Str)
    (omap : List (Str × Str)) (cache : Cache) (addr : Str) :
    (Str × Str) × Cache :=
  let addr_norm := normalizeL addr
  let base : (Str × Str) × Cache :=
    if modeS == strL "offline" then (offline_enrich addr_norm omap, cache)
    else if modeS == strL "online" then
      let r := online_enrich lookup addr cache
      (r.1, r.2.1)
    else
      let dt1 := offline_enrich addr_norm omap
      if dt1.1 == NF || dt1.2 == NF then
        let r := online_enrich lookup addr cache
        ((if dt1.1 == NF then r.1.1 else dt1.1,
          if dt1.2 == NF then r.1.2 else dt1.2), r.2.1)
      else (dt1, cache)
  if retry && (base.1.1 == NF || base.1.2 == NF) &&
      !(modeS == strL "online") then
    let r := online_enrich lookup addr base.2
    ((if base.1.1 == NF && !r.1.1.isEmpty then r.1.1 else base.1.1,
      if base.1.2 == NF && !r.1.2.isEmpty then r.1.2 else base.1.2),
     r.2.1)
  else base

/-- The `run` loop over all rows (`address_enricher.py:300`-`327`):
resolve each address, then fill only blank District/Thana cells.
Returns the enriched rows and the final cache. -/
def runRows (modeS : Str) (retry : Bool)
    (lookup : Str → Option Str × Option Str)
    (omap : List (Str × Str)) :
    Cache → List (Str × Str × Str) → List (Str × Str × Str) × Cache
  | cache, [] => ([], cache)
  | cache, (addr, dc, tc) :: rest =>
    let r := enrichRow modeS retry lookup omap cache addr
    let newD := if isBlank dc then r.1.1 else dc
    let newT := if isBlank tc then r.1.2 else tc
    let rec' := runRows modeS retry lookup omap r.2 rest
    ((addr, newD, newT) :: rec'.1, rec'.2)

/-! ### Helper notions used to state the claims -/

/-- The first n-gram of the address whose normalization is a key of the
offline map — the entry the token re-scan of `offline_enrich` uses. -/
def firstGramHit (addr : Str) (m : List (Str × Str)) : Option Str :=
  ((gramsOf addr).map normalizeL).find? (fun g => (dictGet m g).isSome)

/-- Either `A` is not cached, or its cached pair has two non-empty
fields (true of every entry `online_enrich` itself writes). -/
def cacheFieldsOk (cache : Cache) (a : Str) : Bool :=
  match dictGet cache a with
  | none => true
  | some dt => !dt.1.isEmpty && !dt.2.isEmpty

/-- Key lists with no duplicate keys — the invariant of every Python
dictionary. -/
def keysNodup (cache : Cache) : Prop := (cache.map (·.1)).Nodup

/-- `Except` success test. -/
def isOkE {ε α : Type} : Except ε α → Bool
  | .ok _ => true
  | .error _ => false

/-! ### Concrete fixtures used by witnesses and counterexamples -/

/-- A network oracle that never resolves anything. -/
def lookupNone : Str → Option Str × Option Str := fun _ => (none, none)

/-- The pre-seeded cache of the cache-hit scenario. -/
def cacheSeedUnknownSt : Cache :=
  [(strL "123 Unknown St", (strL "Sylhet", strL "Kotwali"))]

/-- A cache holding an entry with empty-string fields, as produced by
loading a cache CSV row with empty district/thana columns. -/
def cacheEmptyFields : Cache := [(strL "A", ([], []))]

/-- A two-entry cache. -/
def cacheTwoKeys : Cache :=
  [(strL "a", (strL "Sylhet", strL "Kotwali")),
   (strL "b", (strL "Dhaka", strL "Badda"))]

/-- Default row used with `List.getD`. -/
def rowDefault : Str × Str × Str := ([], [], [])

/-- A string is in collapsed form: every whitespace character in it is a
plain space and no two adjacent characters are both whitespace.
`collapseWs` always produces such strings and fixes them. -/
def cOk : Str → Bool
  | [] => true
  | [c] => !isWs c || c == ' '
  | c :: d :: rest =>
    (!isWs c || c == ' ') && !(isWs c && isWs d) && cOk (d :: rest)

/-- A one-row table whose District and Thana cells are already
populated. -/
def rowsFixture : List (Str × Str × Str) :=
  [(strL "somewhere", strL "Dhaka", strL "Badda")]

/-- A cache whose entries exercise CSV quoting: a key with comma,
quote and newline, an empty field, and a plain entry. -/
def cacheCsvFixture : Cache :=
  [(strL "12, \"Lake Rd\"\nDhaka", (strL "Dha\"ka", strL "")),
   (strL "plain", (strL "Sylhet", strL "Kotwali"))]

/-! ## Theorems -/

/-! ### Dictionary lemmas -/

theorem dictGet_insert_self {α : Type} (m : List (Str × α)) (k : Str)
    (v : α) : dictGet (dictInsert m k v) k = some v := by
  induction m with
  | nil =>
    unfold dictInsert dictGet
    rw [List.find?_cons_of_pos _ (by simp)]
    rfl
  | cons hd rest ih =>
    obtain ⟨k0, v0⟩ := hd
    simp only [dictInsert]
    by_cases h : k0 = k
    · rw [if_pos (by simp [h])]
      unfold dictGet
      rw [List.find?_cons_of_pos _ (by simp)]
      rfl
    · rw [if_neg (by simpa using h)]
      unfold dictGet
      rw [List.find?_cons_of_neg _ (by simpa using h)]
      exact ih

theorem dictGet_insert_ne {α : Type} (m : List (Str × α)) (k k' : Str)
    (v : α) (hk : k' ≠ k) :
    dictGet (dictInsert m k v) k' = dictGet m k' := by
  have hkk : (k == k') = false := beq_eq_false_iff_ne.mpr (Ne.symm hk)
  induction m with
  | nil =>
    unfold dictInsert dictGet
    rw [List.find?_cons_of_neg _ (by simp [hkk])]
  | cons hd rest ih =>
    obtain ⟨k0, v0⟩ := hd
    simp only [dictInsert]
    by_cases h : k0 = k
    · rw [if_pos (by simp [h])]
      unfold dictGet
      rw [List.find?_cons_of_neg _ (by simp [h, hkk]),
        List.find?_cons_of_neg _ (by simp [h, hkk])]
    · rw [if_neg (by simpa using h)]
      unfold dictGet
      by_cases h0 : k0 = k'
      · rw [List.find?_cons_of_pos _ (by simp [h0]),
          List.find?_cons_of_pos _ (by simp [h0])]
      · rw [List.find?_cons_of_neg _ (by simpa using h0),
          List.find?_cons_of_neg _ (by simpa using h0)]
        exact ih

/-! ### C3 — cache hit short-circuits the network -/

/-- C3: for every cache and raw address that is already a cache key, the
online resolver returns the cached value (with empty fields replaced by
the sentinel), leaves the cache untouched, and issues zero
`nominatim_lookup` network calls. -/
theorem cache_hit_short_circuits (lookup : Str → Option Str × Option Str)
    (cache : Cache) (address d t : Str)
    (h : dictGet cache address = some (d, t)) :
    online_enrich lookup address cache =
      ((strOrNF d, strOrNF t), cache, 0) := by
  simp [online_enrich, h]

/-- Scenario witness for C3: pre-seed the cache with
`"123 Unknown St" ↦ ("Sylhet", "Kotwali")`; resolving that exact raw
string returns `("Sylhet", "Kotwali")` with zero network calls and an
unchanged cache. -/
theorem cache_hit_short_circuits_witness :
    online_enrich lookupNone (strL "123 Unknown St") cacheSeedUnknownSt =
      ((strL "Sylhet", strL "Kotwali"), cacheSeedUnknownSt, 0) := by
  have h := cache_hit_short_circuits lookupNone cacheSeedUnknownSt
    (strL "123 Unknown St") (strL "Sylhet") (strL "Kotwali") (by decide)
  exact h.trans (by decide)

/-! ### C10 — online resolution touches only its own cache entry -/

/-- C10: `online_enrich` changes the cache at most at the queried
address — every other key keeps its membership and value — and on a
cache hit the cache is not modified at all. -/
theorem online_enrich_frame (lookup : Str → Option Str × Option Str)
    (address : Str) (cache : Cache) (k : Str) (hk : k ≠ address) :
    dictGet (online_enrich lookup address cache).2.1 k =
      dictGet cache k ∧
    ((dictGet cache address).isSome = true →
      (online_enrich lookup address cache).2.1 = cache) := by
  cases hx : dictGet cache address with
  | some dt =>
    exact ⟨by simp [online_enrich, hx], fun _ => by simp [online_enrich, hx]⟩
  | none =>
    constructor
    · simp [online_enrich, hx, dictGet_insert_ne _ _ _ _ hk]
    · intro hs; simp at hs

/-- Witness for C10 at a concrete two-entry cache: resolving `"a"`
leaves key `"b"` and (being a hit) the whole cache unchanged. -/
theorem online_enrich_frame_witness :
    dictGet (online_enrich lookupNone (strL "a") cacheTwoKeys).2.1
        (strL "b") = some (strL "Dhaka", strL "Badda") ∧
    (online_enrich lookupNone (strL "a") cacheTwoKeys).2.1 =
      cacheTwoKeys := by
  have h := online_enrich_frame lookupNone (strL "a") cacheTwoKeys
    (strL "b") (by decide)
  exact ⟨h.1.trans (by decide), h.2 (by decide)⟩

/-! ### C1 — write-through invariant -/

/-- Counterexample to C1 as stated: on a cache-hit with a cached pair
containing an empty-string field (loadable from a cache CSV with empty
columns), the call returns the sentinel-substituted pair but the cache
still holds the empty fields, so `get` does not return what the call
returned. -/
theorem write_through_cex :
    some (online_enrich lookupNone (strL "A") cacheEmptyFields).1 ≠
      dictGet (online_enrich lookupNone (strL "A") cacheEmptyFields).2.1
        (strL "A") := by decide

/-- C1 amended: after any `online_enrich` call for address `A`, `A` is a
key of the cache and `get(A)` returns exactly the pair the call
returned, provided that on the cache-hit path the stored pair has no
empty-string field (which holds for every entry `online_enrich` itself
ever writes); on the network path this holds unconditionally. -/
theorem write_through_amended (lookup : Str → Option Str × Option Str)
    (address : Str) (cache : Cache)
    (h : cacheFieldsOk cache address = true) :
    dictGet (online_enrich lookup address cache).2.1 address =
      some (online_enrich lookup address cache).1 := by
  cases hx : dictGet cache address with
  | none => simp [online_enrich, hx, dictGet_insert_self]
  | some dt =>
    simp only [cacheFieldsOk, hx, Bool.and_eq_true, Bool.not_eq_true'] at h
    simp [online_enrich, hx, strOrNF, h.1, h.2]

/-- Witness for the amended C1 on the cache-hit path with non-empty
stored fields. -/
theorem write_through_amended_witness :
    dictGet
        (online_enrich lookupNone (strL "123 Unknown St")
          cacheSeedUnknownSt).2.1 (strL "123 Unknown St") =
      some (online_enrich lookupNone (strL "123 Unknown St")
        cacheSeedUnknownSt).1 :=
  write_through_amended lookupNone (strL "123 Unknown St")
    cacheSeedUnknownSt (by decide)

/-! ### C8 — `normalize` totality and coercion -/

/-- Counterexample to C8 as stated: a non-string, non-`None` input is
coerced with `str(...)`, not to the empty string — `normalize(123)` is
`"123"`, not `normalize("")`. -/
theorem normalize_coerce_cex :
    normalize_any (.int 123) = strL "123" ∧
    normalize_any (.str []) = ([] : Str) ∧
    normalize_any (.int 123) ≠ normalize_any (.str []) := by decide

/-- C8 amended: `normalize` is total on every input value and returns a
string; `None` (and the empty string) normalize to the empty string,
while any other non-string input is coerced via its `str(...)`
representation before normalization. -/
theorem normalize_total_amended :
    (∀ s : Str, normalize_any (.str s) = normalizeL s) ∧
    normalize_any .none = ([] : Str) ∧
    (∀ n : Int, normalize_any (.int n) = normalizeL (intStr n)) :=
  ⟨fun _ => rfl, by decide, fun _ => rfl⟩

/-! ### C6 — gazetteer build fails softly -/

/-- Counterexample to C6 as stated: `load_csv_gazetteer` has no
`try`/`except`, so an existing but undecodable gazetteer file raises to
the caller instead of yielding the seed-only build. -/
theorem gazetteer_soft_fail_cex :
    load_csv_gazetteer .badEncoding = .error "UnicodeDecodeError" := rfl

/-- C6 amended: only a missing gazetteer source is tolerated — it
yields exactly the seed-only index without raising; rows the `csv`
module successfully delivers never raise either (rows with missing or
empty fields are simply skipped); but every exception path on an
existing file — unreadable (`OSError`), undecodable
(`UnicodeDecodeError`), or decodable with CSV content the parser
refuses, such as a field over `csv.field_size_limit`
(`_csv.Error`) — raises to the caller. -/
theorem gazetteer_soft_fail_amended :
    (load_csv_gazetteer .absent = .ok [] ∧
      make_offline_index [] = EXPANDED_AREA) ∧
    (∀ rs, isOkE (load_csv_gazetteer (.rows rs)) = true) ∧
    isOkE (load_csv_gazetteer .ioError) = false ∧
    isOkE (load_csv_gazetteer .badEncoding) = false ∧
    isOkE (load_csv_gazetteer .csvError) = false := by
  refine ⟨⟨rfl, ?_⟩, fun rs => rfl, rfl, rfl, rfl⟩
  unfold make_offline_index
  rw [List.foldl_nil]

/-! ### C4 — field-level fill discipline -/

/-- C4: running the orchestrator in any mode (the mode string is
arbitrary: `"offline"`, `"online"`, or anything else, which takes the
`auto` branch), with or without the retry pass, over any rows, cache,
gazetteer index and network behaviour, leaves every already non-blank
District cell and every already non-blank Thana cell unchanged; only
blank (empty or whitespace-only) cells are ever filled. -/
theorem fill_discipline (modeS : Str) (retry : Bool)
    (lookup : Str → Option Str × Option Str) (omap : List (Str × Str))
    (rows : List (Str × Str × Str)) (cache : Cache) (i : Nat)
    (hi : i < rows.length) :
    (isBlank (rows.getD i rowDefault).2.1 = false →
      ((runRows modeS retry lookup omap cache rows).1.getD i
        rowDefault).2.1 = (rows.getD i rowDefault).2.1) ∧
    (isBlank (rows.getD i rowDefault).2.2 = false →
      ((runRows modeS retry lookup omap cache rows).1.getD i
        rowDefault).2.2 = (rows.getD i rowDefault).2.2) := by
  induction rows generalizing cache i with
  | nil => simp at hi
  | cons r rest ih =>
    obtain ⟨addr, dc, tc⟩ := r
    cases i with
    | zero =>
      simp only [runRows, List.getD_cons_zero]
      constructor
      · intro hb; simp [hb]
      · intro hb; simp [hb]
    | succ n =>
      have hn : n < rest.length := by simpa using hi
      simp only [runRows, List.getD_cons_succ]
      exact ih _ n hn

/-- Witness for C4: a row with District `"Dhaka"` and Thana `"Badda"`
already filled survives an `auto`-mode run with retry unchanged. -/
theorem fill_discipline_witness :
    ((runRows (strL "auto") true lookupNone [] [] rowsFixture).1.getD 0
      rowDefault).2.1 = strL "Dhaka" ∧
    ((runRows (strL "auto") true lookupNone [] [] rowsFixture).1.getD 0
      rowDefault).2.2 = strL "Badda" := by
  have h := fill_discipline (strL "auto") true lookupNone [] rowsFixture
    [] 0 (by decide)
  exact ⟨(h.1 (by decide)).trans (by decide),
    (h.2 (by decide)).trans (by decide)⟩

/-! ### C5 — literal-match precedence for the district -/

theorem gramScan_keeps_district (m : List (Str × Str)) :
    ∀ (grams : List Str) (dOut tOut : Str), dOut ≠ NF →
      (gramScan m grams dOut tOut).1 = dOut := by
  intro grams
  induction grams with
  | nil => intro dOut tOut h; rfl
  | cons g rest ih =>
    intro dOut tOut h
    simp only [gramScan]
    cases hx : dictGet m (normalizeL g) with
    | some v => simp [hx, beq_eq_false_iff_ne.mpr h]
    | none => simpa [hx] using ih dOut tOut h

theorem district_keys_title_ne_NF :
    ∀ d ∈ DISTRICT_KEYS, titleCase (aliasResolve d) ≠ NF := by decide

/-- C5: whenever some member of the closed district-name set (canonical
names and aliases) occurs word-bounded in the normalized address, the
offline district guess is exactly the first such literal match in the
key list's iteration order, with an alias resolved to its canonical
form — and `offline_enrich`'s district output is its title-cased form
regardless of the gazetteer index, so the literal match outranks any
area-derived, fuzzy, or gazetteer-scan district. -/
theorem district_literal_precedence (addr : Str) (m : List (Str × Str))
    (h : ∃ d ∈ DISTRICT_KEYS, hasWordMatch d addr = true) :
    ∃ d, DISTRICT_KEYS.find? (fun k => hasWordMatch k addr) = some d ∧
      guess_district_from_text addr = some (aliasResolve d) ∧
      (offline_enrich addr m).1 = titleCase (aliasResolve d) := by
  obtain ⟨d0, hd0, hw⟩ := h
  have hs : (DISTRICT_KEYS.find? (fun k => hasWordMatch k addr)).isSome :=
    List.find?_isSome.mpr ⟨d0, hd0, hw⟩
  obtain ⟨d, hd⟩ := Option.isSome_iff_exists.mp hs
  have hg : guess_district_from_text addr = some (aliasResolve d) := by
    simp [guess_district_from_text, hd]
  refine ⟨d, hd, hg, ?_⟩
  have hmem : d ∈ DISTRICT_KEYS := List.mem_of_find?_eq_some hd
  have hne : titleCase (aliasResolve d) ≠ NF :=
    district_keys_title_ne_NF d hmem
  have hoe : offline_enrich addr m =
      gramScan m (gramsOf addr) (titleCase (aliasResolve d))
        (match guess_area addr with
          | some a0 => thanaFormat a0
          | none => NF) := by
    simp [offline_enrich, hg]
  rw [hoe]
  exact gramScan_keeps_district m _ _ _ hne

/-- Witness for C5: in `"jessore road"` no canonical district name
occurs, but the alias `"jessore"` does; the guess is its canonical
district `"jashore"` and the offline district output is `"Jashore"`. -/
theorem district_literal_precedence_witness :
    guess_district_from_text (strL "jessore road") =
      some (strL "jashore") ∧
    (offline_enrich (strL "jessore road") []).1 = strL "Jashore" := by
  obtain ⟨d, hfind, hg, ho⟩ :=
    district_literal_precedence (strL "jessore road") [] (by decide)
  have hd : d = strL "jessore" := by
    have : DISTRICT_KEYS.find?
        (fun k => hasWordMatch k (strL "jessore road")) =
        some (strL "jessore") := by decide
    rw [this] at hfind
    exact (Option.some_inj.mp hfind).symm
  subst hd
  exact ⟨hg.trans (by decide), ho.trans (by decide)⟩

/-! ### C7 — gazetteer override scenario -/

theorem gramScan_first_hit (m : List (Str × Str)) :
    ∀ (grams : List Str) (g0 v0 : Str),
      (grams.map normalizeL).find? (fun g => (dictGet m g).isSome) =
        some g0 →
      dictGet m g0 = some v0 →
      gramScan m grams NF NF = (titleCase v0, titleCase g0) := by
  intro grams
  induction grams with
  | nil => intro g0 v0 hf _; simp at hf
  | cons g rest ih =>
    intro g0 v0 hf hv
    simp only [List.map_cons] at hf
    cases hx : dictGet m (normalizeL g) with
    | some v =>
      rw [List.find?_cons_of_pos _ (by simp [hx])] at hf
      have hg0 : normalizeL g = g0 := Option.some_inj.mp hf
      have hvv : v = v0 := by
        rw [hg0, hv] at hx
        exact Option.some_inj.mp hx.symm
      simp only [gramScan, hx, hg0, hvv]
      simp [hv]
    | none =>
      rw [List.find?_cons_of_neg _ (by simp [hx])] at hf
      simp only [gramScan, hx]
      exact ih g0 v0 hf hv

/-- C7: if the offline index built from the external gazetteer maps the
key `"sadar"` to `"kushtia"` (as the row `(thana="Sadar",
district="Kushtia")` produces), and the address has no district-name
match, no area match (literal or fuzzy), and its first gazetteer token
hit is `"sadar"`, then offline resolution uses that entry and yields
district `"Kushtia"`, thana `"Sadar"`. -/
theorem gazetteer_override (addr : Str) (rows : List (Str × Str))
    (hmap : dictGet (make_offline_index rows) (strL "sadar") =
      some (strL "kushtia"))
    (hd : guess_district_from_text addr = none)
    (ha : guess_area addr = none)
    (hg : firstGramHit addr (make_offline_index rows) =
      some (strL "sadar")) :
    offline_enrich addr (make_offline_index rows) =
      (strL "Kushtia", strL "Sadar") := by
  have h1 : offline_enrich addr (make_offline_index rows) =
      gramScan (make_offline_index rows) (gramsOf addr) NF NF := by
    simp [offline_enrich, hd, ha]
  rw [h1]
  have h2 := gramScan_first_hit (make_offline_index rows) (gramsOf addr)
    (strL "sadar") (strL "kushtia") hg hmap
  exact h2.trans (by decide)

/-- Witness for C7: the address `"sadar"` itself, with the external
gazetteer row `("sadar", "kushtia")` overlaid on the seed index. -/
theorem gazetteer_override_witness :
    offline_enrich (strL "sadar")
        (make_offline_index [(strL "sadar", strL "kushtia")]) =
      (strL "Kushtia", strL "Sadar") :=
  gazetteer_override (strL "sadar") [(strL "sadar", strL "kushtia")]
    (by decide) (by decide) (by decide) (by decide)

/-! ### C2 — idempotence of `normalize` -/

theorem map_id_of_mem {f : Char → Char} :
    ∀ s : Str, (∀ c ∈ s, f c = c) → s.map f = s
  | [], _ => rfl
  | c :: t, h => by
    simp only [List.map_cons]
    rw [h c (by simp), map_id_of_mem t (fun d hd => h d (by simp [hd]))]

theorem toLower_fix (c : Char) (h : isAllowedCore c = true ∨ c = ' ') :
    c.toLower = c := by
  have hn : ¬(c.toNat ≥ 65 ∧ c.toNat ≤ 90) := by
    rcases h with h | h
    · simp only [isAllowedCore, Bool.or_eq_true, Bool.and_eq_true,
        decide_eq_true_eq, beq_iff_eq] at h
      rcases h with ((((⟨h1, h2⟩ | ⟨h3, h4⟩) | h5) | h6) | h7) <;> omega
    · subst h; decide
  have hdef : Char.toLower c =
      if c.toNat ≥ 65 ∧ c.toNat ≤ 90 then Char.ofNat (c.toNat + 32)
      else c := rfl
  rw [hdef, if_neg hn]

theorem stripBad_fix (c : Char) (h : isAllowedCore c = true ∨ c = ' ') :
    (if isAllowedCore c || isWs c then c else ' ') = c := by
  rcases h with h | h
  · rw [if_pos (by simp [h])]
  · subst h; decide

theorem mem_stripBad (s : Str) (c : Char) (h : c ∈ stripBad s) :
    isAllowedCore c = true ∨ isWs c = true := by
  simp only [stripBad, List.mem_map] at h
  obtain ⟨d, _, he⟩ := h
  by_cases hc : (isAllowedCore d || isWs d) = true
  · rw [if_pos hc] at he
    subst he
    exact Bool.or_eq_true_iff.mp hc
  · rw [if_neg hc] at he
    subst he
    right; decide

theorem collapseWs_cons_not_ws (d : Char) (rest : Str)
    (h : isWs d = false) : collapseWs (d :: rest) = d :: collapseWs rest := by
  cases rest with
  | nil => simp [collapseWs, h]
  | cons e t => simp [collapseWs, h]

theorem cOk_cons (c : Char) (s : Str)
    (h1 : isWs c = false ∨ c = ' ')
    (h2 : ∀ x t, s = x :: t → (isWs c && isWs x) = false)
    (h3 : cOk s = true) : cOk (c :: s) = true := by
  have hc : (!isWs c || c == ' ') = true := by
    rcases h1 with h | h
    · simp [h]
    · simp [h]
  cases s with
  | nil => simpa [cOk] using hc
  | cons x t =>
    simp only [cOk, Bool.and_eq_true]
    refine ⟨⟨hc, ?_⟩, h3⟩
    rw [h2 x t rfl]
    rfl

theorem cOk_collapseWs : ∀ s : Str, cOk (collapseWs s) = true
  | [] => rfl
  | [c] => by
    by_cases h : isWs c = true
    · simp [collapseWs, h, cOk]
    · simp [collapseWs, h, cOk]
  | c :: d :: rest => by
    have ih := cOk_collapseWs (d :: rest)
    by_cases h1 : isWs c = true
    · by_cases h2 : isWs d = true
      · simpa [collapseWs, h1, h2] using ih
      · have h2' : isWs d = false := by simpa using h2
        rw [show collapseWs (c :: d :: rest) = ' ' :: collapseWs (d :: rest)
          from by simp [collapseWs, h1, h2']]
        rw [collapseWs_cons_not_ws d rest h2'] at ih ⊢
        refine cOk_cons ' ' (d :: collapseWs rest) (Or.inr rfl) ?_ ih
        intro x t hxt
        injection hxt with hx _
        subst hx
        simp [h2']
    · have h1' : isWs c = false := by simpa using h1
      rw [collapseWs_cons_not_ws c (d :: rest) h1']
      refine cOk_cons c (collapseWs (d :: rest)) (Or.inl h1') ?_ ih
      intro x t _
      simp [h1']

theorem collapseWs_of_cOk : ∀ s : Str, cOk s = true → collapseWs s = s
  | [], _ => rfl
  | [c], h => by
    simp only [cOk] at h
    by_cases hc : isWs c = true
    · have hsp : c = ' ' := by
        rcases Bool.or_eq_true_iff.mp h with h' | h'
        · rw [hc] at h'; cases h'
        · exact eq_of_beq h'
      subst hsp; simp [collapseWs]
    · have hc' : isWs c = false := by simpa using hc
      simp [collapseWs, hc']
  | c :: d :: rest, h => by
    simp only [cOk, Bool.and_eq_true] at h
    obtain ⟨⟨hA, hB⟩, hC⟩ := h
    have hB' : (isWs c && isWs d) = false := by
      revert hB; cases isWs c && isWs d <;> simp
    have hrec := collapseWs_of_cOk (d :: rest) hC
    have hemit : (if isWs c then ' ' else c) = c := by
      by_cases hc : isWs c = true
      · have hsp : c = ' ' := by
          rcases Bool.or_eq_true_iff.mp hA with h' | h'
          · rw [hc] at h'; cases h'
          · exact eq_of_beq h'
        rw [if_pos hc, hsp]
      · rw [if_neg hc]
    rw [show collapseWs (c :: d :: rest) =
        (if isWs c then ' ' else c) :: collapseWs (d :: rest)
      from by simp [collapseWs, hB'], hemit, hrec]

theorem cOk_tail : ∀ (c : Char) (t : Str), cOk (c :: t) = true →
    cOk t = true
  | _, [], _ => rfl
  | _, _ :: _, h => by
    simp only [cOk, Bool.and_eq_true] at h
    exact h.2

theorem cOk_dropWhile (p : Char → Bool) :
    ∀ s : Str, cOk s = true → cOk (s.dropWhile p) = true
  | [], h => h
  | c :: t, h => by
    rw [List.dropWhile_cons]
    by_cases hc : p c = true
    · rw [if_pos hc]
      exact cOk_dropWhile p t (cOk_tail c t h)
    · rw [if_neg hc]; exact h

theorem cOk_append_left : ∀ l r : Str, cOk (l ++ r) = true → cOk l = true
  | [], _, _ => rfl
  | [c], r, h => by
    cases r with
    | nil => simpa using h
    | cons x t =>
      simp only [List.cons_append, List.nil_append, cOk,
        Bool.and_eq_true] at h
      simp only [cOk]
      exact h.1.1
  | c :: y :: t', r, h => by
    simp only [List.cons_append, cOk, Bool.and_eq_true] at h
    obtain ⟨⟨hA, hB⟩, hC⟩ := h
    have hrest : cOk (y :: t') = true :=
      cOk_append_left (y :: t') r (by simpa using hC)
    simp only [cOk, Bool.and_eq_true]
    exact ⟨⟨hA, hB⟩, hrest⟩

theorem dropTrailWs_prefix (s : Str) : ∃ r, s = dropTrailWs s ++ r := by
  obtain ⟨pre, hp⟩ := List.dropWhile_suffix (l := s.reverse) isWs
  refine ⟨pre.reverse, ?_⟩
  unfold dropTrailWs
  calc s = s.reverse.reverse := (List.reverse_reverse s).symm
    _ = (pre ++ s.reverse.dropWhile isWs).reverse := by rw [hp]
    _ = (s.reverse.dropWhile isWs).reverse ++ pre.reverse := by
        rw [List.reverse_append]

theorem cOk_dropTrail (s : Str) (h : cOk s = true) :
    cOk (dropTrailWs s) = true := by
  obtain ⟨r, hr⟩ := dropTrailWs_prefix s
  exact cOk_append_left (dropTrailWs s) r (by rw [← hr]; exact h)

theorem cOk_trim (s : Str) (h : cOk s = true) : cOk (trimWs s) = true := by
  unfold trimWs
  exact cOk_dropTrail _ (cOk_dropWhile isWs s h)

theorem dropWhile_idem (p : Char → Bool) : ∀ s : Str,
    List.dropWhile p (List.dropWhile p s) = List.dropWhile p s
  | [] => rfl
  | c :: t => by
    rw [List.dropWhile_cons]
    by_cases hc : p c = true
    · rw [if_pos hc]; exact dropWhile_idem p t
    · rw [if_neg hc, List.dropWhile_cons, if_neg hc]

theorem dropWhile_of_trail (u : Str)
    (hu : List.dropWhile isWs u = u) :
    List.dropWhile isWs (dropTrailWs u) = dropTrailWs u := by
  cases hd : dropTrailWs u with
  | nil => simp
  | cons x t1 =>
    obtain ⟨r, hr⟩ := dropTrailWs_prefix u
    rw [hd, List.cons_append] at hr
    have hx : isWs x = false := by
      by_contra hxx
      have hx' : isWs x = true := by simpa using hxx
      rw [hr, List.dropWhile_cons, if_pos hx'] at hu
      have hlen : (List.dropWhile isWs (t1 ++ r)).length =
          (t1 ++ r).length + 1 := by rw [hu]; simp
      have hle : (List.dropWhile isWs (t1 ++ r)).length ≤
          (t1 ++ r).length :=
        (List.dropWhile_suffix isWs).sublist.length_le
      omega
    rw [List.dropWhile_cons, if_neg (by simp [hx])]

theorem dropTrail_idem (u : Str) :
    dropTrailWs (dropTrailWs u) = dropTrailWs u := by
  unfold dropTrailWs
  rw [List.reverse_reverse, dropWhile_idem]

theorem trimWs_idem (s : Str) : trimWs (trimWs s) = trimWs s := by
  unfold trimWs
  rw [dropWhile_of_trail (List.dropWhile isWs s) (dropWhile_idem isWs s),
    dropTrail_idem]

theorem mem_collapseWs : ∀ (s : Str) (c : Char), c ∈ collapseWs s →
    c = ' ' ∨ (c ∈ s ∧ isWs c = false)
  | [], c, h => by simp [collapseWs] at h
  | [d], c, h => by
    by_cases hd : isWs d = true
    · left
      simpa [collapseWs, hd] using h
    · right
      have hd' : isWs d = false := by simpa using hd
      have : c = d := by simpa [collapseWs, hd'] using h
      subst this
      exact ⟨by simp, hd'⟩
  | d :: e :: rest, c, h => by
    by_cases h1 : isWs d = true
    · by_cases h2 : isWs e = true
      · rw [show collapseWs (d :: e :: rest) = collapseWs (e :: rest)
          from by simp [collapseWs, h1, h2]] at h
        rcases mem_collapseWs (e :: rest) c h with h' | ⟨hm, hw⟩
        · left; exact h'
        · right; exact ⟨List.mem_cons_of_mem d hm, hw⟩
      · have h2' : isWs e = false := by simpa using h2
        rw [show collapseWs (d :: e :: rest) =
            ' ' :: collapseWs (e :: rest)
          from by simp [collapseWs, h1, h2']] at h
        rcases List.mem_cons.mp h with h' | h'
        · left; exact h'
        · rcases mem_collapseWs (e :: rest) c h' with h'' | ⟨hm, hw⟩
          · left; exact h''
          · right; exact ⟨List.mem_cons_of_mem d hm, hw⟩
    · have h1' : isWs d = false := by simpa using h1
      rw [collapseWs_cons_not_ws d (e :: rest) h1'] at h
      rcases List.mem_cons.mp h with h' | h'
      · subst h'; right; exact ⟨by simp, h1'⟩
      · rcases mem_collapseWs (e :: rest) c h' with h'' | ⟨hm, hw⟩
        · left; exact h''
        · right; exact ⟨List.mem_cons_of_mem d hm, hw⟩

theorem mem_trimWs (s : Str) (c : Char) (h : c ∈ trimWs s) : c ∈ s := by
  unfold trimWs at h
  obtain ⟨r, hr⟩ := dropTrailWs_prefix (List.dropWhile isWs s)
  have h1 : c ∈ List.dropWhile isWs s := by
    rw [hr]; exact List.mem_append_left _ h
  exact (List.dropWhile_suffix isWs).sublist.subset h1

theorem normalizeL_chars (x : Str) :
    ∀ c ∈ normalizeL x, isAllowedCore c = true ∨ c = ' ' := by
  intro c hc
  unfold normalizeL at hc
  have h1 := mem_trimWs _ c hc
  rcases mem_collapseWs _ c h1 with h2 | ⟨h3, h4⟩
  · right; exact h2
  · rcases mem_stripBad _ c h3 with h5 | h5
    · left; exact h5
    · rw [h5] at h4; cases h4

/-- Counterexample to C2 as stated: `normalize` is not idempotent, since
whitespace collapsing can expose a replacement-table key only on the
second pass — `normalize("badda  thana")` is `"badda thana"` (a key of
the replacement table), and normalizing again gives `"badda"`. -/
theorem normalize_idem_cex :
    normalizeL (normalizeL (strL "badda  thana")) ≠
      normalizeL (strL "badda  thana") := by decide

/-- C2 amended: `normalize` is idempotent on every string whose
normalized form the replacement table leaves unchanged (no
spelling-variant key occurs in the normalized form); in general a
second normalization can apply further replacements, as for
`"badda  thana"`. -/
theorem normalize_idem_amended (x : Str)
    (h : applyReps (normalizeL x) = normalizeL x) :
    normalizeL (normalizeL x) = normalizeL x := by
  have hchars := normalizeL_chars x
  have hlow : lowerStr (normalizeL x) = normalizeL x := by
    unfold lowerStr
    exact map_id_of_mem _ (fun c hc => toLower_fix c (hchars c hc))
  have hstrip : stripBad (normalizeL x) = normalizeL x := by
    unfold stripBad
    exact map_id_of_mem _ (fun c hc => stripBad_fix c (hchars c hc))
  have hcok : cOk (normalizeL x) = true := by
    unfold normalizeL
    exact cOk_trim _ (cOk_collapseWs _)
  have hcol : collapseWs (normalizeL x) = normalizeL x :=
    collapseWs_of_cOk _ hcok
  have htrim : trimWs (normalizeL x) = normalizeL x := by
    conv_lhs => rw [show normalizeL x =
      trimWs (collapseWs (stripBad (applyReps (lowerStr x)))) from rfl]
    rw [trimWs_idem]
    rfl
  calc normalizeL (normalizeL x)
      = trimWs (collapseWs (stripBad (applyReps
          (lowerStr (normalizeL x))))) := rfl
    _ = trimWs (collapseWs (stripBad (applyReps (normalizeL x)))) := by
        rw [hlow]
    _ = trimWs (collapseWs (stripBad (normalizeL x))) := by rw [h]
    _ = trimWs (collapseWs (normalizeL x)) := by rw [hstrip]
    _ = trimWs (normalizeL x) := by rw [hcol]
    _ = normalizeL x := htrim

/-- Witness for the amended C2 at a concrete address whose normalized
form contains no replacement key. -/
theorem normalize_idem_amended_witness :
    applyReps (normalizeL (strL "House 7, Dhanmondi!")) =
        normalizeL (strL "House 7, Dhanmondi!") ∧
    normalizeL (normalizeL (strL "House 7, Dhanmondi!")) =
      normalizeL (strL "House 7, Dhanmondi!") :=
  ⟨by decide, normalize_idem_amended _ (by decide)⟩

/-! ### C9 — cache round-trip through the CSV store -/

theorem parseUnquoted_append (f : Str)
    (hf : ∀ c ∈ f, (c == ',' || c == '\r' || c == '\n') = false) :
    ∀ (acc : Str) (d : Char) (rest : Str),
      (d == ',' || d == '\r' || d == '\n') = true →
      parseUnquoted acc (f ++ d :: rest) = (acc.reverse ++ f, d :: rest) := by
  induction f with
  | nil =>
    intro acc d rest hd
    simp only [List.nil_append, parseUnquoted]
    rw [if_pos hd]
    simp
  | cons c f' ih =>
    intro acc d rest hd
    have hc := hf c (by simp)
    simp only [List.cons_append, parseUnquoted]
    rw [if_neg (by simp [hc])]
    exact (ih (fun x hx => hf x (by simp [hx])) (c :: acc) d rest
      hd).trans (by simp)

theorem parseQuotedGo_append (f : Str) :
    ∀ (acc : Str) (d : Char) (rest : Str), (d == '"') = false →
      parseQuotedGo false acc (escQ f ++ '"' :: d :: rest) =
        (acc.reverse ++ f, d :: rest) := by
  induction f with
  | nil =>
    intro acc d rest hd
    simp [escQ, parseQuotedGo, hd]
  | cons c f' ih =>
    intro acc d rest hd
    by_cases hc : (c == '"') = true
    · have hc' : c = '"' := eq_of_beq hc
      subst hc'
      rw [show escQ ('"' :: f') = '"' :: '"' :: escQ f' from by
        simp [escQ]]
      have hstep : parseQuotedGo false acc
          (('"' :: '"' :: escQ f') ++ '"' :: d :: rest) =
          parseQuotedGo false ('"' :: acc)
            (escQ f' ++ '"' :: d :: rest) := by
        simp [parseQuotedGo]
      rw [hstep]
      exact (ih ('"' :: acc) d rest hd).trans (by simp)
    · have hc' : (c == '"') = false := by
        revert hc; cases c == '"' <;> simp
      rw [show escQ (c :: f') = c :: escQ f' from by simp [escQ, hc']]
      have hstep : parseQuotedGo false acc
          ((c :: escQ f') ++ '"' :: d :: rest) =
          parseQuotedGo false (c :: acc)
            (escQ f' ++ '"' :: d :: rest) := by
        simp [parseQuotedGo, hc']
      rw [hstep]
      exact (ih (c :: acc) d rest hd).trans (by simp)

theorem parseField_writeField (f : Str) (d : Char) (rest : Str)
    (hd : (d == ',' || d == '\r' || d == '\n') = true)
    (hdq : (d == '"') = false) :
    parseField (writeField f ++ d :: rest) = (f, d :: rest) := by
  by_cases hq : needsQuote f = true
  · rw [show writeField f = '"' :: (escQ f ++ ['"']) from by
      simp [writeField, hq]]
    have harr : ('"' :: (escQ f ++ ['"'])) ++ d :: rest =
        '"' :: (escQ f ++ '"' :: d :: rest) := by
      simp [List.append_assoc]
    rw [harr]
    simp only [parseField]
    rw [if_pos (by decide)]
    exact (parseQuotedGo_append f [] d rest hdq).trans (by simp)
  · have hq' : needsQuote f = false := by
      revert hq; cases needsQuote f <;> simp
    have hany : f.any
        (fun c => c == ',' || c == '"' || c == '\r' || c == '\n') =
        false := hq'
    have hchars : ∀ c ∈ f,
        (c == ',' || c == '"' || c == '\r' || c == '\n') = false := by
      intro c hcmem
      have hx := List.any_eq_false.mp hany c hcmem
      revert hx
      cases c == ',' <;> cases c == '"' <;> cases c == '\r' <;>
        cases c == '\n' <;> simp
    rw [show writeField f = f from by simp [writeField, hq']]
    cases f with
    | nil =>
      simp only [List.nil_append, parseField]
      rw [if_neg (by simp [hdq])]
      simp only [parseUnquoted]
      rw [if_pos hd]
      simp
    | cons c f' =>
      have hcc := hchars c (by simp)
      have hcq : (c == '"') = false := by
        revert hcc; cases c == ','  <;> cases c == '"' <;>
          cases c == '\r' <;> cases c == '\n' <;> simp
      have hcu : (c == ',' || c == '\r' || c == '\n') = false := by
        revert hcc; cases c == ','  <;> cases c == '"' <;>
          cases c == '\r' <;> cases c == '\n' <;> simp
      simp only [List.cons_append, parseField]
      rw [if_neg (by simp [hcq])]
      have hall : ∀ x ∈ c :: f', (x == ',' || x == '\r' || x == '\n') = false := by
        intro x hx
        have hxc := hchars x hx
        revert hxc
        cases x == ','  <;> cases x == '"' <;>
          cases x == '\r' <;> cases x == '\n' <;> simp
      rw [show c :: (f' ++ d :: rest) = (c :: f') ++ d :: rest from rfl]
      exact (parseUnquoted_append (c :: f') hall [] d rest hd).trans
        (by simp)

theorem parseRecordGo_writeRow3 (a b c : Str) (rest : Str)
    (acc : List Str) (n : Nat) :
    parseRecordGo (n + 3) (writeRow3 a b c ++ rest) acc =
      (acc.reverse ++ [a, b, c], rest) := by
  have h1 : writeRow3 a b c ++ rest =
      writeField a ++ ',' :: (writeField b ++ ',' ::
        (writeField c ++ '\r' :: '\n' :: rest)) := by
    simp [writeRow3, List.append_assoc]
  rw [h1]
  simp only [parseRecordGo]
  rw [parseField_writeField a ',' _ (by decide) (by decide)]
  show parseRecordGo (n + 2)
    (writeField b ++ ',' :: (writeField c ++ '\r' :: '\n' :: rest))
    (a :: acc) = (acc.reverse ++ [a, b, c], rest)
  simp only [parseRecordGo]
  rw [parseField_writeField b ',' _ (by decide) (by decide)]
  show parseRecordGo (n + 1) (writeField c ++ '\r' :: '\n' :: rest)
    (b :: a :: acc) = (acc.reverse ++ [a, b, c], rest)
  simp only [parseRecordGo]
  rw [parseField_writeField c '\r' _ (by decide) (by decide)]
  show ((c :: b :: a :: acc).reverse, rest) =
    (acc.reverse ++ [a, b, c], rest)
  simp

theorem writeRow3_length (a b c : Str) : 4 ≤ (writeRow3 a b c).length := by
  simp [writeRow3]
  omega

theorem encodeRows_length (rs : List (Str × Str × Str)) :
    rs.length ≤ (encodeRows rs).length := by
  induction rs with
  | nil => simp [encodeRows]
  | cons r rest ih =>
    have h4 := writeRow3_length r.1 r.2.1 r.2.2
    show rest.length + 1 ≤
      (writeRow3 r.1 r.2.1 r.2.2 ++ encodeRows rest).length
    rw [List.length_append]
    omega

theorem parseRecords_encodeRows :
    ∀ (rs : List (Str × Str × Str)) (fuel : Nat), rs.length ≤ fuel →
      parseRecords fuel (encodeRows rs) =
        rs.map (fun r => [r.1, r.2.1, r.2.2]) := by
  intro rs
  induction rs with
  | nil =>
    intro fuel _
    cases fuel with
    | zero => rfl
    | succ m => rfl
  | cons r rest ih =>
    intro fuel hf
    cases fuel with
    | zero => simp at hf
    | succ m =>
      have hrest : rest.length ≤ m := by simpa using hf
      have henc : encodeRows (r :: rest) =
          writeRow3 r.1 r.2.1 r.2.2 ++ encodeRows rest := rfl
      have h4 := writeRow3_length r.1 r.2.1 r.2.2
      cases hE : encodeRows (r :: rest) with
      | nil =>
        exfalso
        have hlen0 : (encodeRows (r :: rest)).length = 0 := by
          rw [hE]; rfl
        rw [henc, List.length_append] at hlen0
        omega
      | cons c0 t0 =>
        simp only [parseRecords]
        rw [← hE, henc]
        have hlen3 : 3 ≤
            (writeRow3 r.1 r.2.1 r.2.2 ++ encodeRows rest).length := by
          rw [List.length_append]
          omega
        rw [show (writeRow3 r.1 r.2.1 r.2.2 ++ encodeRows rest).length =
            ((writeRow3 r.1 r.2.1 r.2.2 ++ encodeRows rest).length - 3) + 3
          from by omega]
        rw [parseRecordGo_writeRow3 r.1 r.2.1 r.2.2 (encodeRows rest) [] _]
        simp only [List.reverse_nil, List.nil_append]
        rw [ih m hrest]
        simp

theorem dictGet_cons {α : Type} (k0 : Str) (v0 : α)
    (rest : List (Str × α)) (key : Str) :
    dictGet ((k0, v0) :: rest) key =
      if (k0 == key) = true then some v0 else dictGet rest key := by
  unfold dictGet
  rw [List.find?_cons]
  by_cases h : (k0 == key) = true
  · rw [show ((k0, v0).1 == key) = true from h]
    rfl
  · have h' : (k0 == key) = false := by
      revert h; cases k0 == key <;> simp
    rw [show ((k0, v0).1 == key) = false from h']
    rfl

theorem hdr_lookup_a (k dv tv : Str) :
    (dictGet (List.zip [strL "address", strL "district", strL "thana"]
      [k, dv, tv]) (strL "address")).getD [] = k := by
  show (dictGet [(strL "address", k), (strL "district", dv),
    (strL "thana", tv)] (strL "address")).getD [] = k
  rw [dictGet_cons, if_pos (by decide)]
  rfl

theorem hdr_lookup_d (k dv tv : Str) :
    (dictGet (List.zip [strL "address", strL "district", strL "thana"]
      [k, dv, tv]) (strL "district")).getD [] = dv := by
  show (dictGet [(strL "address", k), (strL "district", dv),
    (strL "thana", tv)] (strL "district")).getD [] = dv
  rw [dictGet_cons, if_neg (by decide), dictGet_cons, if_pos (by decide)]
  rfl

theorem hdr_lookup_t (k dv tv : Str) :
    (dictGet (List.zip [strL "address", strL "district", strL "thana"]
      [k, dv, tv]) (strL "thana")).getD [] = tv := by
  show (dictGet [(strL "address", k), (strL "district", dv),
    (strL "thana", tv)] (strL "thana")).getD [] = tv
  rw [dictGet_cons, if_neg (by decide), dictGet_cons, if_neg (by decide),
    dictGet_cons, if_pos (by decide)]
  rfl

theorem load_fold_eq : ∀ (c m : Cache),
    (c.map (fun r => [r.1, r.2.1, r.2.2])).foldl
      (fun m2 r => dictInsert m2
        ((dictGet (List.zip
          [strL "address", strL "district", strL "thana"] r)
          (strL "address")).getD [])
        ((dictGet (List.zip
          [strL "address", strL "district", strL "thana"] r)
          (strL "district")).getD [],
         (dictGet (List.zip
          [strL "address", strL "district", strL "thana"] r)
          (strL "thana")).getD [])) m
    = c.foldl (fun acc kv => dictInsert acc kv.1 kv.2) m := by
  intro c
  induction c with
  | nil => intro m; rfl
  | cons kv rest ih =>
    intro m
    obtain ⟨ka, kd, kt⟩ := kv
    simp only [List.map_cons, List.foldl_cons]
    rw [hdr_lookup_a, hdr_lookup_d, hdr_lookup_t]
    exact ih _

theorem dictInsert_append_fresh {α : Type} (m : List (Str × α))
    (k : Str) (v : α) (h : dictGet m k = none) :
    dictInsert m k v = m ++ [(k, v)] := by
  induction m with
  | nil => rfl
  | cons p rest ih =>
    obtain ⟨k0, v0⟩ := p
    have hk0 : (k0 == k) = false := by
      by_contra hc
      have hc' : (k0 == k) = true := by
        revert hc; cases k0 == k <;> simp
      unfold dictGet at h
      rw [List.find?_cons_of_pos _ (by simpa using hc')] at h
      simp at h
    have hrest : dictGet rest k = none := by
      unfold dictGet at h ⊢
      rw [List.find?_cons_of_neg _ (by simp [hk0])] at h
      exact h
    simp only [dictInsert]
    rw [if_neg (by simp [hk0])]
    rw [ih hrest]
    simp

theorem dictGet_append_none {α : Type} (m1 m2 : List (Str × α))
    (k : Str) (h1 : dictGet m1 k = none) :
    dictGet (m1 ++ m2) k = dictGet m2 k := by
  induction m1 with
  | nil => simp
  | cons p rest ih =>
    obtain ⟨k0, v0⟩ := p
    have hk0 : (k0 == k) = false := by
      by_contra hc
      have hc' : (k0 == k) = true := by
        revert hc; cases k0 == k <;> simp
      unfold dictGet at h1
      rw [List.find?_cons_of_pos _ (by simpa using hc')] at h1
      simp at h1
    have hrest : dictGet rest k = none := by
      unfold dictGet at h1 ⊢
      rw [List.find?_cons_of_neg _ (by simp [hk0])] at h1
      exact h1
    rw [List.cons_append]
    unfold dictGet
    rw [List.find?_cons_of_neg _ (by simp [hk0])]
    exact ih hrest

theorem foldl_insert_rebuild : ∀ (c m : Cache),
    (∀ kv ∈ c, dictGet m kv.1 = none) → keysNodup c →
    c.foldl (fun acc kv => dictInsert acc kv.1 kv.2) m = m ++ c := by
  intro c
  induction c with
  | nil => intro m _ _; simp
  | cons kv rest ih =>
    intro m hfresh hnodup
    obtain ⟨ka, va⟩ := kv
    have hnd : keysNodup ((ka, va) :: rest) := hnodup
    unfold keysNodup at hnd
    simp only [List.map_cons, List.nodup_cons] at hnd
    have hfresh' : ∀ kv' ∈ rest, dictGet (m ++ [(ka, va)]) kv'.1 = none := by
      intro kv' hkv'
      have hne : kv'.1 ≠ ka := by
        intro he
        exact hnd.1 (he ▸ List.mem_map_of_mem _ hkv')
      rw [dictGet_append_none m [(ka, va)] kv'.1
        (hfresh kv' (by simp [hkv']))]
      unfold dictGet
      rw [List.find?_cons_of_neg _
        (by simp [beq_eq_false_iff_ne.mpr (Ne.symm hne)])]
      rfl
    have hnodup' : keysNodup rest := hnd.2
    simp only [List.foldl_cons]
    rw [dictInsert_append_fresh m ka va (hfresh (ka, va) (by simp))]
    rw [ih (m ++ [(ka, va)]) hfresh' hnodup']
    simp

/-- C9: saving an in-memory cache to the configured store and loading
it back yields a cache whose `get` result agrees with the pre-save
cache on every key — entries round-trip exactly (CSV quoting included)
and no other key gains a value. -/
theorem cache_roundtrip (cache : Cache) (h : keysNodup cache) (k : Str) :
    dictGet (load_cache (some (save_cache cache))) k =
      dictGet cache k := by
  have hsave : save_cache cache =
      encodeRows ((strL "address", strL "district", strL "thana") ::
        cache) := rfl
  have hfuel : ((strL "address", strL "district", strL "thana") ::
      cache).length ≤ (save_cache cache).length + 1 := by
    have henc := encodeRows_length
      ((strL "address", strL "district", strL "thana") :: cache)
    rw [hsave]
    omega
  have hrecs : parseRecords ((save_cache cache).length + 1)
      (save_cache cache) =
      [strL "address", strL "district", strL "thana"] ::
        cache.map (fun r => [r.1, r.2.1, r.2.2]) := by
    rw [hsave] at hfuel ⊢
    rw [parseRecords_encodeRows _ _ hfuel]
    simp
  show dictGet (load_cache_content (save_cache cache)) k = dictGet cache k
  unfold load_cache_content
  rw [hrecs]
  show dictGet ((cache.map (fun r => [r.1, r.2.1, r.2.2])).foldl
    (fun m2 r => dictInsert m2
      ((dictGet (List.zip
        [strL "address", strL "district", strL "thana"] r)
        (strL "address")).getD [])
      ((dictGet (List.zip
        [strL "address", strL "district", strL "thana"] r)
        (strL "district")).getD [],
       (dictGet (List.zip
        [strL "address", strL "district", strL "thana"] r)
        (strL "thana")).getD [])) []) k = dictGet cache k
  rw [load_fold_eq cache []]
  rw [foldl_insert_rebuild cache [] (fun kv _ => rfl) h]
  simp

/-- Witness for C9 at a cache whose entries exercise CSV quoting
(comma, quote and newline in the key, an empty field), plus a key
absent before and after. -/
theorem cache_roundtrip_witness :
    dictGet (load_cache (some (save_cache cacheCsvFixture)))
        (strL "12, \"Lake Rd\"\nDhaka") =
      some (strL "Dha\"ka", strL "") ∧
    dictGet (load_cache (some (save_cache cacheCsvFixture)))
        (strL "missing") = none := by
  have h1 := cache_roundtrip cacheCsvFixture
    (by unfold keysNodup; decide) (strL "12, \"Lake Rd\"\nDhaka")
  have h2 := cache_roundtrip cacheCsvFixture
    (by unfold keysNodup; decide) (strL "missing")
  exact ⟨h1.trans (by decide), h2.trans (by decide)⟩
